import Mathlib

/-!
Shallow embedding of `src/main.py`: a polygon area / perimeter / ranking
program.  Coordinates are modelled as rationals (every numeral the field
parser accepts denotes a rational); the square root appearing in the
perimeter computation lands in `ℝ`.  Text is modelled as `List Char` and
fallible Python code (raising `ValueError`, uncaught exceptions) is modelled
with `Except String` / `Option`.
-/

/-- Mirrors class `Shape` of `main.py` (lines 6-12): a process-unique integer
identity (`id(self)` in Python, modelled as an explicitly supplied natural
number) together with the ordered vertex list. -/
structure Shape where
  id : ℕ
  vertices : List (ℚ × ℚ)
deriving DecidableEq, Repr

/-- One shoelace cross term `x0 * y1 - x1 * y0` (line 27 of `main.py`). -/
def cross (p q : ℚ × ℚ) : ℚ := p.1 * q.2 - q.1 * p.2

/-- Mirrors the accumulation loop of `Shape.area` (lines 22-31): for
`i = 0, …, n-1` add the cross term of vertex `i` and vertex `(i + 1) % n`. -/
def shoelaceLoop (vs : List (ℚ × ℚ)) : ℚ :=
  (List.finRange vs.length).foldl
    (fun acc i =>
      acc + cross (vs.get i) (vs.get ⟨(i.val + 1) % vs.length, Nat.mod_lt _ i.pos⟩))
    0

/-- The same shoelace accumulation written as a `Finset` sum over the `n`
wrapped edges; proved equal to `shoelaceLoop` below. -/
def shoelaceSum (vs : List (ℚ × ℚ)) : ℚ :=
  ∑ i : Fin vs.length,
    cross (vs.get i) (vs.get ⟨(i.val + 1) % vs.length, Nat.mod_lt _ i.pos⟩)

/-- The shoelace accumulation over an abstract vertex tuple `Fin n → ℚ × ℚ`,
used to relate the sum over a list to sums over its rotations and reversal. -/
def shoelaceFn (n : ℕ) (v : Fin n → ℚ × ℚ) : ℚ :=
  ∑ i : Fin n, cross (v i) (v ⟨(i.val + 1) % n, Nat.mod_lt _ i.pos⟩)

/-- Mirrors `Shape.area` (lines 17-33): raises `ValueError` below 3 vertices,
otherwise returns `abs(signed shoelace sum) / 2`. -/
def Shape.area (s : Shape) : Except String ℚ :=
  if s.vertices.length < 3 then .error "Not enough vertices to calculate area"
  else .ok (|shoelaceLoop s.vertices| / 2)

/-- Mirrors one edge length `((x0 - x1)**2 + (y0 - y1)**2) ** 0.5`
(line 45 of `main.py`). -/
noncomputable def edgeLen (p q : ℚ × ℚ) : ℝ :=
  Real.sqrt (((p.1 : ℝ) - (q.1 : ℝ)) ^ 2 + ((p.2 : ℝ) - (q.2 : ℝ)) ^ 2)

/-- Mirrors the accumulation loop of `Shape.circumference` (lines 40-49). -/
noncomputable def circLoop (vs : List (ℚ × ℚ)) : ℝ :=
  (List.finRange vs.length).foldl
    (fun acc i =>
      acc + edgeLen (vs.get i) (vs.get ⟨(i.val + 1) % vs.length, Nat.mod_lt _ i.pos⟩))
    0

/-- The perimeter accumulation as a `Finset` sum over the `n` wrapped edges. -/
noncomputable def circSum (vs : List (ℚ × ℚ)) : ℝ :=
  ∑ i : Fin vs.length,
    edgeLen (vs.get i) (vs.get ⟨(i.val + 1) % vs.length, Nat.mod_lt _ i.pos⟩)

/-- Mirrors `Shape.circumference` (lines 35-51): raises `ValueError` below 3
vertices, otherwise returns the sum of the `n` wrapped edge lengths. -/
noncomputable def Shape.circumference (s : Shape) : Except String ℝ :=
  if s.vertices.length < 3 then .error "Not enough vertices to calculate circumference"
  else .ok (circLoop s.vertices)

/-- Mirrors `Shape.affine_transform` (lines 53-65).  Only rows `0` and `1` of
the 3×3 matrix are read by the source; the fresh `id(self)` of the newly
constructed Python `Shape` is modelled by the explicit `newId` argument. -/
def Shape.affine_transform (s : Shape) (m : Fin 3 → Fin 3 → ℚ) (newId : ℕ) : Shape :=
  { id := newId
    vertices := s.vertices.map fun p =>
      (m 0 0 * p.1 + m 0 1 * p.2 + m 0 2,
       m 1 0 * p.1 + m 1 1 * p.2 + m 1 2) }

/-- Mirrors Python's `';'.join` used on line 15 of `main.py` (text as char
lists). -/
def joinSemi : List (List Char) → List Char
  | [] => []
  | [t] => t
  | t :: ts => t ++ ';' :: joinSemi ts

/-- Mirrors `Shape.__str__` (lines 14-15), with the rendering of one Python
float abstracted as `fmt`. -/
def Shape.toStr (s : Shape) (fmt : ℚ → List Char) : List Char :=
  joinSemi (s.vertices.map fun p => '(' :: fmt p.1 ++ ',' :: fmt p.2 ++ [')'])

/-- Mirrors Python's `text.split(sep)` for a one-character separator:
`splitOnChar ';' "a;;b"` is `["a", "", "b"]` and splitting the empty text
yields `[""]`, exactly as in Python. -/
def splitOnChar (sep : Char) : List Char → List (List Char)
  | [] => [[]]
  | c :: rest =>
      if c = sep then [] :: splitOnChar sep rest
      else
        match splitOnChar sep rest with
        | [] => [[c]]
        | t :: ts => (c :: t) :: ts

/-- Whitespace stripped from both ends, mirroring Python's `float` accepting
surrounding whitespace. -/
def trimChars (cs : List Char) : List Char :=
  ((cs.dropWhile fun c => c.isWhitespace).reverse.dropWhile fun c => c.isWhitespace).reverse

/-- Numeric value of a digit string, most significant digit first. -/
def digitsVal (cs : List Char) : ℕ :=
  cs.foldl (fun n c => 10 * n + (c.toNat - 48)) 0

/-- Modelled from the spec: the numeric conversion of one unsigned sub-token
(§4.1, "parsed as two floating-point numbers"), i.e. the Python builtin
`float`, which is not part of the repository.  An unsigned token is digits
with at most one decimal point and at least one digit overall; anything else
fails. -/
def pyFloatCore (cs : List Char) : Option ℚ :=
  match splitOnChar '.' cs with
  | [w] =>
      if w ≠ [] ∧ w.all (fun c => c.isDigit) then some (digitsVal w) else none
  | [w, f] =>
      if (w ≠ [] ∨ f ≠ []) ∧ w.all (fun c => c.isDigit) ∧ f.all (fun c => c.isDigit) then
        some ((digitsVal w : ℚ) + (digitsVal f : ℚ) / (10 : ℚ) ^ f.length)
      else none
  | _ => none

/-- Modelled from the spec: Python's `float(text)` with an optional leading
sign and surrounding whitespace stripped, failing (raising `ValueError`,
here `none`) on malformed text. -/
def pyFloat (cs : List Char) : Option ℚ :=
  match trimChars cs with
  | '+' :: rest => pyFloatCore rest
  | '-' :: rest => (pyFloatCore rest).map (fun q => -q)
  | rest => pyFloatCore rest

/-- Mirrors one iteration of the `create_shape` loop (lines 70-78): split the
field on `';'`; unless that yields exactly two sub-tokens that both convert
to numbers, the field is skipped. -/
def parseField (field : List Char) : Option (ℚ × ℚ) :=
  match splitOnChar ';' field with
  | [a, b] =>
      match pyFloat a, pyFloat b with
      | some x, some y => some (x, y)
      | _, _ => none
  | _ => none

/-- Mirrors `create_shape` (lines 68-79): fold over the record's fields in
order, appending one vertex per successfully parsed field. -/
def create_shape (row : List (List Char)) (newId : ℕ) : Shape :=
  { id := newId
    vertices :=
      row.foldl
        (fun vs field =>
          match parseField field with
          | some p => vs ++ [p]
          | none => vs)
        [] }

/-- Mirrors Python truthiness of a `Shape` instance, as tested by
`if shape:` on line 95: class `Shape` defines neither `__bool__` nor
`__len__`, so every instance (even one with an empty vertex list) is truthy. -/
def shapeTruthy (_ : Shape) : Bool := true

/-- Mirrors the ingestion loop of `parse_csv` (lines 93-96), threading the
next fresh `id(self)` value as `k` (ids are modelled as consecutive record
indices, cf. spec §9 "identity-based lookup"). -/
def ingestFrom (k : ℕ) : List (List (List Char)) → List Shape
  | [] => []
  | row :: rest =>
      let s := create_shape row k
      if shapeTruthy s then s :: ingestFrom (k + 1) rest
      else ingestFrom (k + 1) rest

/-- Ingestion of a whole batch of records, ids starting at `0`. -/
def ingest (rows : List (List (List Char))) : List Shape := ingestFrom 0 rows

/-- Number of shapes in a collection with at least 3 vertices, i.e. those the
metric pass can score. -/
def validCount (shapes : List Shape) : ℕ :=
  (shapes.filter fun s => 3 ≤ s.vertices.length).length

/-- Mirrors the metric loop of `parse_csv` (lines 98-103): for each shape,
append `(id, area)` and then `(id, circumference)`; a raised `ValueError`
skips the rest of that shape's iteration and continues with the next shape. -/
noncomputable def metricPass : List Shape → List (ℕ × ℚ) × List (ℕ × ℝ)
  | [] => ([], [])
  | s :: rest =>
      let acc := metricPass rest
      match s.area with
      | .error _ => acc
      | .ok a =>
          match s.circumference with
          | .error _ => ((s.id, a) :: acc.1, acc.2)
          | .ok c => ((s.id, a) :: acc.1, (s.id, c) :: acc.2)

/-- Mirrors `sorted(…, key=lambda x: x[1], reverse=True)` (lines 105-106):
the stable descending sort by the metric component.  Python's sort is stable,
and a stable sort with respect to a fixed total key preorder is unique, so
insertion sort placing each earlier element before later equal-keyed ones
computes exactly the same list. -/
def sortDesc {α : Type} [LinearOrder α] (l : List (ℕ × α)) : List (ℕ × α) :=
  List.insertionSort (fun a b => b.2 ≤ a.2) l

/-- The hard-coded transformation matrix of line 114 of `main.py`. -/
def tmatrix : Fin 3 → Fin 3 → ℚ := ![![4, 0, -3], ![-1, 2, 2], ![0, 0, 1]]

/-- Mirrors `parse_csv` (lines 82-129).  The input models the record source:
`none` is a file that cannot be opened (`FileNotFoundError`), `some lines`
the list of records, the first being the header skipped by `next(csvfile)`.
The result is `.ok (status, top-10 area report, top-10 perimeter report)`,
while `.error` models an uncaught Python exception escaping `parse_csv`
(`StopIteration` from `next` on an empty file, `IndexError` from `areas[i]`,
or a `ValueError` raised by `transformed_shape.area()`). -/
noncomputable def parse_csv :
    Option (List (List (List Char))) → Except String (ℕ × List (ℕ × ℚ) × List (ℕ × ℝ))
  | none => .ok (1, [], [])
  | some [] => .error "StopIteration"
  | some (_hdr :: rows) =>
      let shapes := ingest rows
      let m := metricPass shapes
      let areas := sortDesc m.1
      let circumferences := sortDesc m.2
      if 10 ≤ areas.length ∧ 10 ≤ circumferences.length then
        match areas with
        | [] => .error "IndexError"
        | top :: _ =>
            match shapes.find? (fun s => s.id == top.1) with
            | none => .ok (0, areas.take 10, circumferences.take 10)
            | some s =>
                match (s.affine_transform tmatrix rows.length).area with
                | .error e => .error e
                | .ok _ => .ok (0, areas.take 10, circumferences.take 10)
      else .error "IndexError"

/-! ## Bridge lemmas: the source loops as `Finset` sums -/

lemma foldl_add_eq {M : Type} [AddCommMonoid M] {A : Type} (f : A → M) :
    ∀ (l : List A) (a : M), l.foldl (fun acc i => acc + f i) a = a + (l.map f).sum
  | [], a => by simp
  | x :: t, a => by
      simp only [List.foldl_cons, List.map_cons, List.sum_cons]
      rw [foldl_add_eq f t (a + f x), add_assoc]

lemma shoelaceLoop_eq (vs : List (ℚ × ℚ)) : shoelaceLoop vs = shoelaceSum vs := by
  unfold shoelaceLoop shoelaceSum
  rw [foldl_add_eq, Fin.sum_univ_def, zero_add]

lemma circLoop_eq (vs : List (ℚ × ℚ)) : circLoop vs = circSum vs := by
  unfold circLoop circSum
  rw [foldl_add_eq, Fin.sum_univ_def, zero_add]

lemma area_of_ge_three (s : Shape) (h : 3 ≤ s.vertices.length) :
    s.area = .ok (|shoelaceSum s.vertices| / 2) := by
  unfold Shape.area
  rw [if_neg (by omega), shoelaceLoop_eq]

lemma circumference_of_ge_three (s : Shape) (h : 3 ≤ s.vertices.length) :
    s.circumference = .ok (circSum s.vertices) := by
  unfold Shape.circumference
  rw [if_neg (by omega), circLoop_eq]

lemma triangle_shoelace : shoelaceSum [((0 : ℚ), (0 : ℚ)), (4, 0), (4, 3)] = 12 := by
  show (∑ i : Fin 3, _) = 12
  rw [Fin.sum_univ_three]
  norm_num [cross]

/-- C1: for every polygon with at least 3 vertices, `area()` returns the
shoelace value `|Σ (x_i * y_(i+1) - x_(i+1) * y_i)| / 2` accumulated over all
`n` wrapped edges, this value is non-negative, and the 3-4-5 triangle with
vertices (0,0), (4,0), (4,3) has area 6. -/
theorem C1_area_shoelace (s : Shape) (h : 3 ≤ s.vertices.length) :
    s.area = .ok (|shoelaceSum s.vertices| / 2) ∧
    0 ≤ |shoelaceSum s.vertices| / 2 ∧
    Shape.area ⟨0, [(0, 0), (4, 0), (4, 3)]⟩ = .ok 6 := by
  refine ⟨area_of_ge_three s h, div_nonneg (abs_nonneg _) (by norm_num), ?_⟩
  rw [area_of_ge_three _ (by norm_num), triangle_shoelace]
  norm_num

/-- Witness for C1 at the concrete 3-4-5 triangle. -/
theorem C1_witness :
    3 ≤ (Shape.mk 0 [(0, 0), (4, 0), (4, 3)]).vertices.length ∧
    Shape.area ⟨0, [(0, 0), (4, 0), (4, 3)]⟩ = .ok 6 :=
  ⟨by norm_num, (C1_area_shoelace ⟨0, [(0, 0), (4, 0), (4, 3)]⟩ (by norm_num)).2.2⟩

lemma circSum_nonneg (vs : List (ℚ × ℚ)) : 0 ≤ circSum vs := by
  unfold circSum
  exact Finset.sum_nonneg fun i _ => Real.sqrt_nonneg _

lemma edgeLen_eval (p q : ℚ × ℚ) (d : ℝ) (hd : 0 ≤ d)
    (h : ((p.1 : ℝ) - (q.1 : ℝ)) ^ 2 + ((p.2 : ℝ) - (q.2 : ℝ)) ^ 2 = d ^ 2) :
    edgeLen p q = d := by
  unfold edgeLen
  rw [h]
  exact Real.sqrt_sq hd

lemma triangle_circ : circSum [((0 : ℚ), (0 : ℚ)), (4, 0), (4, 3)] = 12 := by
  have h : circSum [((0 : ℚ), (0 : ℚ)), (4, 0), (4, 3)] =
      edgeLen (0, 0) (4, 0) + edgeLen (4, 0) (4, 3) + edgeLen (4, 3) (0, 0) := by
    show (∑ i : Fin 3, _) = _
    rw [Fin.sum_univ_three]
    rfl
  rw [h, edgeLen_eval (0, 0) (4, 0) 4 (by norm_num) (by norm_num),
    edgeLen_eval (4, 0) (4, 3) 3 (by norm_num) (by norm_num),
    edgeLen_eval (4, 3) (0, 0) 5 (by norm_num) (by norm_num)]
  norm_num

/-- C2: for every polygon with at least 3 vertices, `circumference()` returns
the non-negative sum of Euclidean distances between consecutive vertices
including the closing wrapped edge, and the 3-4-5 triangle with vertices
(0,0), (4,0), (4,3) has perimeter 12. -/
theorem C2_perimeter (s : Shape) (h : 3 ≤ s.vertices.length) :
    s.circumference = .ok (circSum s.vertices) ∧
    0 ≤ circSum s.vertices ∧
    Shape.circumference ⟨0, [(0, 0), (4, 0), (4, 3)]⟩ = .ok 12 := by
  refine ⟨circumference_of_ge_three s h, circSum_nonneg _, ?_⟩
  rw [circumference_of_ge_three _ (by norm_num), triangle_circ]

/-- Witness for C2 at the concrete 3-4-5 triangle. -/
theorem C2_witness :
    3 ≤ (Shape.mk 0 [(0, 0), (4, 0), (4, 3)]).vertices.length ∧
    Shape.circumference ⟨0, [(0, 0), (4, 0), (4, 3)]⟩ = .ok 12 :=
  ⟨by norm_num, (C2_perimeter ⟨0, [(0, 0), (4, 0), (4, 3)]⟩ (by norm_num)).2.2⟩

/-! ## Parsing and ingestion -/

lemma create_shape_foldl (l : List (List Char)) (acc : List (ℚ × ℚ)) :
    l.foldl
        (fun vs field =>
          match parseField field with
          | some p => vs ++ [p]
          | none => vs)
        acc = acc ++ l.filterMap parseField := by
  induction l generalizing acc with
  | nil => simp
  | cons x t ih =>
      simp only [List.foldl_cons, List.filterMap_cons]
      cases h : parseField x with
      | none => simpa using ih acc
      | some p => simpa [List.append_assoc] using ih (acc ++ [p])

lemma create_shape_vertices (row : List (List Char)) (j : ℕ) :
    (create_shape row j).vertices = row.filterMap parseField := by
  unfold create_shape
  rw [create_shape_foldl, List.nil_append]

/-- C4: the vertex parser emits one point per raw field exactly when the
field splits on `';'` into exactly two sub-tokens that both convert to
numbers; any other field is silently skipped with no partial point, output
order equals field order (the vertex list is the in-order `filterMap` of the
fields), and a record with one well-formed field and one garbage field
yields exactly one vertex. -/
theorem C4_field_parsing :
    (∀ field : List Char,
        (parseField field).isSome ↔
          ∃ a b, splitOnChar ';' field = [a, b] ∧
            (pyFloat a).isSome ∧ (pyFloat b).isSome) ∧
    (∀ (row : List (List Char)) (j : ℕ),
        (create_shape row j).vertices = row.filterMap parseField) ∧
    (create_shape ["0;0".data, "garbage".data] 0).vertices.length = 1 := by
  refine ⟨?_, create_shape_vertices, by decide⟩
  intro field
  cases hsp : splitOnChar ';' field with
  | nil => simp [parseField, hsp]
  | cons a t =>
      cases t with
      | nil => simp [parseField, hsp]
      | cons b t2 =>
          cases t2 with
          | nil =>
              cases hA : pyFloat a with
              | none => simp [parseField, hsp, hA]
              | some x =>
                  cases hB : pyFloat b with
                  | none => simp [parseField, hsp, hA, hB]
                  | some y =>
                      simp only [parseField, hsp, hA, hB, Option.isSome_some,
                        List.cons.injEq, and_true, true_iff]
                      exact ⟨a, b, ⟨rfl, rfl⟩, by simp [hA], by simp [hB]⟩
          | cons c t3 => simp [parseField, hsp]

lemma ingestFrom_eq (rows : List (List (List Char))) :
    ∀ k, ingestFrom k rows = (List.enumFrom k rows).map fun p => create_shape p.2 p.1 := by
  induction rows with
  | nil => intro k; rfl
  | cons row rest ih =>
      intro k
      simp only [ingestFrom, shapeTruthy, if_pos, List.enumFrom, List.map_cons]
      rw [ih]

/-- C7: every data record after the header yields exactly one `Shape` kept in
the collection.  A record would be dropped only if `if shape:` were false,
but a Python `Shape` instance is always truthy (no `__bool__`/`__len__`), so
records yielding zero usable vertices are kept too and only fail later at
metric computation. -/
theorem C7_all_records_kept :
    (∀ s : Shape, shapeTruthy s = true) ∧
    (∀ rows, ingest rows = (rows.enum.map fun p => create_shape p.2 p.1)) ∧
    (∀ rows, (ingest rows).length = rows.length) ∧
    ((ingest [["garbage".data]]).map fun s => s.vertices.length) = [0] := by
  refine ⟨fun _ => rfl, fun rows => ingestFrom_eq rows 0, fun rows => ?_, by decide⟩
  rw [ingest, ingestFrom_eq rows 0]
  simp [List.enumFrom_length]

/-- C5: `transformedBy` maps every vertex `(x, y)` to
`(m00*x + m01*y + m02, m10*x + m11*y + m12)`, never evaluates the third row
of the matrix (two matrices agreeing on rows 0 and 1 give identical
results), preserves vertex order and count for any vertex count, and the
result is a new `Shape` carrying the freshly assigned identity. -/
theorem C5_affine_transform (s : Shape) (m m' : Fin 3 → Fin 3 → ℚ) (j : ℕ)
    (h0 : m 0 = m' 0) (h1 : m 1 = m' 1) :
    (s.affine_transform m j).vertices =
      s.vertices.map (fun p =>
        (m 0 0 * p.1 + m 0 1 * p.2 + m 0 2,
         m 1 0 * p.1 + m 1 1 * p.2 + m 1 2)) ∧
    s.affine_transform m j = s.affine_transform m' j ∧
    (s.affine_transform m j).vertices.length = s.vertices.length ∧
    (s.affine_transform m j).id = j := by
  refine ⟨rfl, ?_, by simp [Shape.affine_transform], rfl⟩
  unfold Shape.affine_transform
  rw [h0, h1]

/-- Witness for C5: a degenerate 2-vertex polygon transformed by the
identity matrix and by the identity matrix with a scribbled third row. -/
theorem C5_witness :
    ((![![1, 0, 0], ![0, 1, 0], ![0, 0, 1]] : Fin 3 → Fin 3 → ℚ) 0 =
        (![![1, 0, 0], ![0, 1, 0], ![5, 7, 9]] : Fin 3 → Fin 3 → ℚ) 0) ∧
    ((![![1, 0, 0], ![0, 1, 0], ![0, 0, 1]] : Fin 3 → Fin 3 → ℚ) 1 =
        (![![1, 0, 0], ![0, 1, 0], ![5, 7, 9]] : Fin 3 → Fin 3 → ℚ) 1) ∧
    ((Shape.mk 7 [(0, 0), (2, 0)]).affine_transform
        ![![1, 0, 0], ![0, 1, 0], ![0, 0, 1]] 42 =
      (Shape.mk 7 [(0, 0), (2, 0)]).affine_transform
        ![![1, 0, 0], ![0, 1, 0], ![5, 7, 9]] 42) ∧
    ((Shape.mk 7 [(0, 0), (2, 0)]).affine_transform
        ![![1, 0, 0], ![0, 1, 0], ![0, 0, 1]] 42).id = 42 :=
  ⟨rfl, rfl,
    (C5_affine_transform (Shape.mk 7 [(0, 0), (2, 0)]) _ _ 42 rfl rfl).2.1,
    (C5_affine_transform (Shape.mk 7 [(0, 0), (2, 0)])
      ![![1, 0, 0], ![0, 1, 0], ![0, 0, 1]] ![![1, 0, 0], ![0, 1, 0], ![0, 0, 1]]
      42 rfl rfl).2.2.2⟩

/-! ## String representation -/

/-- C10 counterexample: the claim says the formatted representation is
"semicolon-free", but for any polygon with at least two vertices the
representation produced by `';'.join` contains a `';'` separator — here for
the 2-vertex polygon `(0,0);(1,1)` rendered with a semicolon-free numeral
formatter. -/
theorem C10_counterexample :
    ';' ∈ Shape.toStr ⟨0, [(0, 0), (1, 1)]⟩ (fun q => (toString q.num).data) := by
  show ';' ∈ joinSemi [_, _]
  simp [joinSemi]

/-- C10 (amended): the formatted representation of any Polygon is the
`';'`-separated join of per-vertex tokens `(x,y)` — one token per vertex, in
vertex order, each token itself semicolon-free (commas inside), with a `';'`
present between tokens whenever there are at least two vertices. -/
theorem C10_str_format (fmt : ℚ → List Char) (s : Shape)
    (hfmt : ∀ q, ';' ∉ fmt q) :
    Shape.toStr s fmt =
      joinSemi (s.vertices.map fun p => '(' :: fmt p.1 ++ ',' :: fmt p.2 ++ [')']) ∧
    (s.vertices.map fun p => '(' :: fmt p.1 ++ ',' :: fmt p.2 ++ [')']).length =
      s.vertices.length ∧
    (∀ (p : ℚ × ℚ) (rest : List (ℚ × ℚ)) (i : ℕ),
        Shape.toStr ⟨i, p :: rest⟩ fmt =
          ('(' :: fmt p.1 ++ ',' :: fmt p.2 ++ [')']) ++
            (if rest = [] then [] else ';' :: Shape.toStr ⟨i, rest⟩ fmt)) ∧
    (∀ p : ℚ × ℚ, ';' ∉ '(' :: fmt p.1 ++ ',' :: fmt p.2 ++ [')']) ∧
    (2 ≤ s.vertices.length → ';' ∈ Shape.toStr s fmt) := by
  refine ⟨rfl, List.length_map _ _, ?_, ?_, ?_⟩
  · intro p rest i
    cases rest with
    | nil => simp [Shape.toStr, joinSemi]
    | cons q t => simp [Shape.toStr, joinSemi]
  · intro p h
    rcases List.mem_append.mp h with h1 | h1
    swap
    · exact absurd (List.mem_singleton.mp h1) (by decide)
    rcases List.mem_append.mp h1 with h2 | h2
    · rcases List.mem_cons.mp h2 with h3 | h3
      · exact absurd h3 (by decide)
      · exact hfmt p.1 h3
    · rcases List.mem_cons.mp h2 with h3 | h3
      · exact absurd h3 (by decide)
      · exact hfmt p.2 h3
  · intro h2
    rcases s with ⟨i, vs⟩
    match vs, h2 with
    | p :: q :: t, _ =>
        show ';' ∈ joinSemi (_ :: _ :: _)
        simp [joinSemi]

/-- Witness for C10 at a concrete 3-vertex polygon and concrete formatter. -/
theorem C10_witness :
    (∀ q : ℚ, ';' ∉ (fun _ : ℚ => ['0']) q) ∧
    (2 ≤ (Shape.mk 1 [((0 : ℚ), (0 : ℚ)), (1, 1), (2, 2)]).vertices.length) ∧
    ';' ∈ Shape.toStr ⟨1, [(0, 0), (1, 1), (2, 2)]⟩ (fun _ => ['0']) :=
  ⟨by intro q; show ';' ∉ ['0']; decide, by decide,
    (C10_str_format (fun _ => ['0']) ⟨1, [(0, 0), (1, 1), (2, 2)]⟩
      (by intro q; show ';' ∉ ['0']; decide)).2.2.2.2 (by decide)⟩

/-! ## The metric pass -/

lemma area_error_iff (s : Shape) :
    (∃ e, s.area = .error e) ↔ s.vertices.length < 3 := by
  unfold Shape.area
  by_cases h : s.vertices.length < 3 <;> simp [h]

lemma circumference_error_iff (s : Shape) :
    (∃ e, s.circumference = .error e) ↔ s.vertices.length < 3 := by
  unfold Shape.circumference
  by_cases h : s.vertices.length < 3 <;> simp [h]

lemma metricPass_cons_valid (s : Shape) (rest : List Shape)
    (h : 3 ≤ s.vertices.length) :
    metricPass (s :: rest) =
      ((s.id, |shoelaceSum s.vertices| / 2) :: (metricPass rest).1,
       (s.id, circSum s.vertices) :: (metricPass rest).2) := by
  simp only [metricPass, area_of_ge_three s h, circumference_of_ge_three s h]

lemma metricPass_cons_invalid (s : Shape) (rest : List Shape)
    (h : s.vertices.length < 3) :
    metricPass (s :: rest) = metricPass rest := by
  simp only [metricPass, Shape.area, if_pos h]

lemma metricPass_mem_fst (shapes : List Shape) :
    ∀ x ∈ (metricPass shapes).1, ∃ s ∈ shapes, s.id = x.1 ∧ 3 ≤ s.vertices.length := by
  induction shapes with
  | nil => intro x hx; simp [metricPass] at hx
  | cons t rest ih =>
      intro x hx
      by_cases h : 3 ≤ t.vertices.length
      · rw [metricPass_cons_valid t rest h] at hx
        rcases List.mem_cons.mp hx with h1 | h1
        · exact ⟨t, List.mem_cons_self t rest, by rw [h1], h⟩
        · rcases ih x h1 with ⟨s, hs, he, hv⟩
          exact ⟨s, List.mem_cons_of_mem t hs, he, hv⟩
      · rw [metricPass_cons_invalid t rest (by omega)] at hx
        rcases ih x hx with ⟨s, hs, he, hv⟩
        exact ⟨s, List.mem_cons_of_mem t hs, he, hv⟩

lemma metricPass_mem_snd (shapes : List Shape) :
    ∀ x ∈ (metricPass shapes).2, ∃ s ∈ shapes, s.id = x.1 ∧ 3 ≤ s.vertices.length := by
  induction shapes with
  | nil => intro x hx; simp [metricPass] at hx
  | cons t rest ih =>
      intro x hx
      by_cases h : 3 ≤ t.vertices.length
      · rw [metricPass_cons_valid t rest h] at hx
        rcases List.mem_cons.mp hx with h1 | h1
        · exact ⟨t, List.mem_cons_self t rest, by rw [h1], h⟩
        · rcases ih x h1 with ⟨s, hs, he, hv⟩
          exact ⟨s, List.mem_cons_of_mem t hs, he, hv⟩
      · rw [metricPass_cons_invalid t rest (by omega)] at hx
        rcases ih x hx with ⟨s, hs, he, hv⟩
        exact ⟨s, List.mem_cons_of_mem t hs, he, hv⟩

lemma metricPass_mem_of_valid (shapes : List Shape) (s : Shape)
    (hs : s ∈ shapes) (h : 3 ≤ s.vertices.length) :
    s.id ∈ (metricPass shapes).1.map Prod.fst ∧
    s.id ∈ (metricPass shapes).2.map Prod.fst := by
  induction shapes with
  | nil => cases hs
  | cons t rest ih =>
      by_cases hv : 3 ≤ t.vertices.length
      · rw [metricPass_cons_valid t rest hv]
        rcases List.mem_cons.mp hs with h1 | h1
        · subst h1; exact ⟨by simp, by simp⟩
        · rcases ih h1 with ⟨ha, hc⟩
          exact ⟨by simp only [List.map_cons]; exact List.mem_cons_of_mem _ ha,
            by simp only [List.map_cons]; exact List.mem_cons_of_mem _ hc⟩
      · rw [metricPass_cons_invalid t rest (by omega)]
        rcases List.mem_cons.mp hs with h1 | h1
        · subst h1; omega
        · exact ih h1

/-- C3: `area()` and `circumference()` fail with the insufficient-vertices
`ValueError` exactly when the polygon has fewer than 3 vertices; in the
metric pass such a polygon is excluded from both the area list and the
perimeter list (never from only one), while every polygon with at least 3
vertices is scored into both lists — one polygon's failure never aborts the
batch. -/
theorem C3_insufficient_vertices :
    (∀ s : Shape, (∃ e, s.area = .error e) ↔ s.vertices.length < 3) ∧
    (∀ s : Shape, (∃ e, s.circumference = .error e) ↔ s.vertices.length < 3) ∧
    (∀ shapes : List Shape, (shapes.map Shape.id).Nodup →
      ∀ s ∈ shapes,
        (s.vertices.length < 3 →
          s.id ∉ (sortDesc (metricPass shapes).1).map Prod.fst ∧
          s.id ∉ (sortDesc (metricPass shapes).2).map Prod.fst) ∧
        (3 ≤ s.vertices.length →
          s.id ∈ (sortDesc (metricPass shapes).1).map Prod.fst ∧
          s.id ∈ (sortDesc (metricPass shapes).2).map Prod.fst)) := by
  have hp1 : ∀ (l : List (ℕ × ℚ)) (a : ℕ),
      a ∈ (sortDesc l).map Prod.fst ↔ a ∈ l.map Prod.fst :=
    fun l a => ((List.perm_insertionSort _ l).map Prod.fst).mem_iff
  have hp2 : ∀ (l : List (ℕ × ℝ)) (a : ℕ),
      a ∈ (sortDesc l).map Prod.fst ↔ a ∈ l.map Prod.fst :=
    fun l a => ((List.perm_insertionSort _ l).map Prod.fst).mem_iff
  refine ⟨area_error_iff, circumference_error_iff, ?_⟩
  intro shapes hnd s hs
  constructor
  · intro hlt
    constructor
    · intro hmem
      rcases List.mem_map.mp ((hp1 _ _).mp hmem) with ⟨x, hx, hxe⟩
      rcases metricPass_mem_fst shapes x hx with ⟨t, ht, hte, htv⟩
      have hts : t = s := List.inj_on_of_nodup_map hnd ht hs (by rw [hte, hxe])
      rw [hts] at htv
      omega
    · intro hmem
      rcases List.mem_map.mp ((hp2 _ _).mp hmem) with ⟨x, hx, hxe⟩
      rcases metricPass_mem_snd shapes x hx with ⟨t, ht, hte, htv⟩
      have hts : t = s := List.inj_on_of_nodup_map hnd ht hs (by rw [hte, hxe])
      rw [hts] at htv
      omega
  · intro hv
    rcases metricPass_mem_of_valid shapes s hs hv with ⟨ha, hc⟩
    exact ⟨(hp1 _ _).mpr ha, (hp2 _ _).mpr hc⟩

/-- Witness for C3: a 2-vertex polygon is excluded from both ranking lists
while a valid triangle in the same batch is still scored into both. -/
theorem C3_witness :
    (([Shape.mk 0 [(0, 0), (1, 1)], Shape.mk 1 [(0, 0), (4, 0), (4, 3)]].map
        Shape.id).Nodup) ∧
    ((Shape.mk 0 [((0 : ℚ), (0 : ℚ)), (1, 1)]).vertices.length < 3) ∧
    (3 ≤ (Shape.mk 1 [((0 : ℚ), (0 : ℚ)), (4, 0), (4, 3)]).vertices.length) ∧
    ((Shape.mk 0 [(0, 0), (1, 1)]).id ∉
      (sortDesc (metricPass [Shape.mk 0 [(0, 0), (1, 1)],
        Shape.mk 1 [(0, 0), (4, 0), (4, 3)]]).1).map Prod.fst) ∧
    ((Shape.mk 1 [(0, 0), (4, 0), (4, 3)]).id ∈
      (sortDesc (metricPass [Shape.mk 0 [(0, 0), (1, 1)],
        Shape.mk 1 [(0, 0), (4, 0), (4, 3)]]).2).map Prod.fst) := by
  refine ⟨by decide, by decide, by decide, ?_, ?_⟩
  · exact (((C3_insufficient_vertices.2.2
      [Shape.mk 0 [(0, 0), (1, 1)], Shape.mk 1 [(0, 0), (4, 0), (4, 3)]]
      (by decide) (Shape.mk 0 [(0, 0), (1, 1)]) (by simp)).1 (by decide)).1)
  · exact (((C3_insufficient_vertices.2.2
      [Shape.mk 0 [(0, 0), (1, 1)], Shape.mk 1 [(0, 0), (4, 0), (4, 3)]]
      (by decide) (Shape.mk 1 [(0, 0), (4, 0), (4, 3)]) (by simp)).2 (by decide)).2)

/-! ## Ranking: stable descending sort -/

instance sortKeyTotal {α : Type} [LinearOrder α] :
    IsTotal (ℕ × α) (fun a b => b.2 ≤ a.2) :=
  ⟨fun a b => le_total b.2 a.2⟩

instance sortKeyTrans {α : Type} [LinearOrder α] :
    IsTrans (ℕ × α) (fun a b => b.2 ≤ a.2) :=
  ⟨fun _ _ _ hab hbc => le_trans hbc hab⟩

lemma sortDesc_sorted {α : Type} [LinearOrder α] (l : List (ℕ × α)) :
    (sortDesc l).Sorted (fun a b => b.2 ≤ a.2) :=
  List.sorted_insertionSort _ l

lemma sortDesc_perm {α : Type} [LinearOrder α] (l : List (ℕ × α)) :
    List.Perm (sortDesc l) l :=
  List.perm_insertionSort _ l

lemma filter_orderedInsert_eq_key {α : Type} [LinearOrder α]
    (a : ℕ × α) (k : α) (ha : a.2 = k) :
    ∀ l : List (ℕ × α),
      (List.orderedInsert (fun x y => y.2 ≤ x.2) a l).filter (fun x => x.2 = k) =
        a :: l.filter (fun x => x.2 = k)
  | [] => by simp [ha]
  | b :: t => by
      by_cases hb : b.2 ≤ a.2
      · rw [List.orderedInsert_of_le (fun x y => y.2 ≤ x.2) t hb]
        simp [ha]
      · have hbk : ¬b.2 = k := by
          intro hk
          exact hb (by rw [ha, ← hk])
        simp only [List.orderedInsert, if_neg hb, List.filter_cons]
        rw [filter_orderedInsert_eq_key a k ha t]
        simp [hbk]

lemma filter_orderedInsert_ne_key {α : Type} [LinearOrder α]
    (a : ℕ × α) (k : α) (ha : ¬a.2 = k) :
    ∀ l : List (ℕ × α),
      (List.orderedInsert (fun x y => y.2 ≤ x.2) a l).filter (fun x => x.2 = k) =
        l.filter (fun x => x.2 = k)
  | [] => by simp [ha]
  | b :: t => by
      by_cases hb : b.2 ≤ a.2
      · rw [List.orderedInsert_of_le (fun x y => y.2 ≤ x.2) t hb]
        simp [ha]
      · simp only [List.orderedInsert, if_neg hb, List.filter_cons]
        rw [filter_orderedInsert_ne_key a k ha t]

lemma sortDesc_stable {α : Type} [LinearOrder α] (l : List (ℕ × α)) (k : α) :
    (sortDesc l).filter (fun x => x.2 = k) = l.filter (fun x => x.2 = k) := by
  unfold sortDesc
  induction l with
  | nil => rfl
  | cons b t ih =>
      simp only [List.insertionSort]
      by_cases hb : b.2 = k
      · rw [filter_orderedInsert_eq_key b k hb, ih]
        simp [List.filter_cons, hb]
      · rw [filter_orderedInsert_ne_key b k hb, ih]
        simp [List.filter_cons, hb]

lemma sortDesc_take_drop {α : Type} [LinearOrder α] (l : List (ℕ × α)) (m : ℕ) :
    ∀ a ∈ (sortDesc l).take m, ∀ b ∈ (sortDesc l).drop m, b.2 ≤ a.2 := by
  have hs := sortDesc_sorted l
  rw [List.Sorted, ← List.take_append_drop m (sortDesc l), List.pairwise_append] at hs
  exact hs.2.2

lemma metricPass_length (shapes : List Shape) :
    (metricPass shapes).1.length = validCount shapes ∧
    (metricPass shapes).2.length = validCount shapes := by
  induction shapes with
  | nil => exact ⟨rfl, rfl⟩
  | cons t rest ih =>
      by_cases h : 3 ≤ t.vertices.length
      · rw [metricPass_cons_valid t rest h]
        unfold validCount at ih ⊢
        simp only [List.filter_cons]
        rw [if_pos (by simpa using h)]
        simp [ih.1, ih.2]
      · rw [metricPass_cons_invalid t rest (by omega)]
        unfold validCount at ih ⊢
        simp only [List.filter_cons]
        rw [if_neg (by simpa using h)]
        exact ih

/-- C6: for every batch with at least 10 valid polygons, each ranking list
is sorted by its metric in descending order, is a permutation of the
computed metric entries, breaks ties by stable original order (the sort
leaves the relative order of equal-keyed entries unchanged), and the top-10
prefix of each list consists of exactly 10 entries each of whose metrics
dominates every entry outside the prefix. -/
theorem C6_ranking (shapes : List Shape) (h : 10 ≤ validCount shapes) :
    ((sortDesc (metricPass shapes).1).Sorted fun a b => b.2 ≤ a.2) ∧
    ((sortDesc (metricPass shapes).2).Sorted fun a b => b.2 ≤ a.2) ∧
    List.Perm (sortDesc (metricPass shapes).1) (metricPass shapes).1 ∧
    List.Perm (sortDesc (metricPass shapes).2) (metricPass shapes).2 ∧
    (∀ k : ℚ, (sortDesc (metricPass shapes).1).filter (fun x => x.2 = k) =
      (metricPass shapes).1.filter (fun x => x.2 = k)) ∧
    (∀ k : ℝ, (sortDesc (metricPass shapes).2).filter (fun x => x.2 = k) =
      (metricPass shapes).2.filter (fun x => x.2 = k)) ∧
    ((sortDesc (metricPass shapes).1).take 10).length = 10 ∧
    ((sortDesc (metricPass shapes).2).take 10).length = 10 ∧
    (∀ a ∈ (sortDesc (metricPass shapes).1).take 10,
      ∀ b ∈ (sortDesc (metricPass shapes).1).drop 10, b.2 ≤ a.2) ∧
    (∀ a ∈ (sortDesc (metricPass shapes).2).take 10,
      ∀ b ∈ (sortDesc (metricPass shapes).2).drop 10, b.2 ≤ a.2) := by
  have hlen := metricPass_length shapes
  refine ⟨sortDesc_sorted _, sortDesc_sorted _, sortDesc_perm _, sortDesc_perm _,
    sortDesc_stable _, sortDesc_stable _, ?_, ?_,
    sortDesc_take_drop _ 10, sortDesc_take_drop _ 10⟩
  · rw [List.length_take, (sortDesc_perm _).length_eq, hlen.1]
    omega
  · rw [List.length_take, (sortDesc_perm _).length_eq, hlen.2]
    omega

/-- Witness for C6 on a concrete batch of 12 valid triangles. -/
theorem C6_witness :
    10 ≤ validCount ((List.range 12).map fun j => Shape.mk j [(0, 0), (4, 0), (4, 3)]) ∧
    ((sortDesc (metricPass ((List.range 12).map fun j =>
        Shape.mk j [(0, 0), (4, 0), (4, 3)])).1).Sorted fun a b => b.2 ≤ a.2) :=
  ⟨by decide,
    (C6_ranking ((List.range 12).map fun j => Shape.mk j [(0, 0), (4, 0), (4, 3)])
      (by decide)).1⟩

/-! ## Area invariance under rotation and reversal of the vertex list -/

lemma crossTerm_anticomm (p q : ℚ × ℚ) : cross p q = -cross q p := by
  unfold cross
  ring

lemma shoelaceSum_eq_fn (vs : List (ℚ × ℚ)) :
    shoelaceSum vs = shoelaceFn vs.length vs.get := rfl

lemma succIdx_eq (n : ℕ) [NeZero n] (i : Fin n) :
    (⟨(i.val + 1) % n, Nat.mod_lt _ i.pos⟩ : Fin n) = i + 1 := by
  apply Fin.ext
  show (i.val + 1) % n = ((i + 1 : Fin n)).val
  rw [Fin.val_add, Fin.val_one']
  conv_lhs => rw [Nat.add_mod]
  conv_rhs => rw [Nat.add_mod]
  rw [Nat.mod_mod_of_dvd 1 dvd_rfl]

lemma shoelaceFn_eq_sum_succ (n : ℕ) [NeZero n] (v : Fin n → ℚ × ℚ) :
    shoelaceFn n v = ∑ i : Fin n, cross (v i) (v (i + 1)) := by
  unfold shoelaceFn
  exact Finset.sum_congr rfl fun i _ => by rw [succIdx_eq]

lemma shoelaceFn_rotate (n : ℕ) [NeZero n] (v : Fin n → ℚ × ℚ) (c : Fin n) :
    shoelaceFn n (fun i => v (i + c)) = shoelaceFn n v := by
  rw [shoelaceFn_eq_sum_succ, shoelaceFn_eq_sum_succ]
  have h1 : ∀ i : Fin n, cross (v (i + c)) (v (i + 1 + c)) =
      (fun j => cross (v j) (v (j + 1))) (Equiv.addRight c i) := by
    intro i
    simp only [Equiv.coe_addRight]
    rw [add_right_comm]
  rw [Finset.sum_congr rfl fun i _ => h1 i]
  exact Equiv.sum_comp (Equiv.addRight c) fun j => cross (v j) (v (j + 1))

lemma shoelaceFn_reverse (n : ℕ) [NeZero n] (v : Fin n → ℚ × ℚ) :
    shoelaceFn n (fun i => v i.rev) = -shoelaceFn n v := by
  rw [shoelaceFn_eq_sum_succ, shoelaceFn_eq_sum_succ]
  have key : ∀ i : Fin n, cross (v i.rev) (v (i + 1).rev) =
      (fun j => -cross (v j) (v (j + 1)))
        (((Equiv.addRight (1 : Fin n)).trans Fin.revPerm) i) := by
    intro i
    simp only [Equiv.trans_apply, Equiv.coe_addRight, Fin.revPerm_apply]
    rw [show (i + 1).rev + 1 = i.rev from by rw [Fin.rev_add]; exact sub_add_cancel _ _]
    exact crossTerm_anticomm _ _
  rw [Finset.sum_congr rfl fun i _ => key i,
    Equiv.sum_comp ((Equiv.addRight (1 : Fin n)).trans Fin.revPerm)
      (fun j => -cross (v j) (v (j + 1))),
    Finset.sum_neg_distrib]

lemma shoelaceFn_congr {n m : ℕ} (h : m = n) (v : Fin m → ℚ × ℚ) :
    shoelaceFn m v = shoelaceFn n fun i => v (Fin.cast h.symm i) := by
  subst h
  rfl

lemma shoelaceSum_rotate (vs : List (ℚ × ℚ)) (hne : vs ≠ []) (k : ℕ) :
    shoelaceSum (vs.rotate k) = shoelaceSum vs := by
  have hpos : 0 < vs.length := List.length_pos.mpr hne
  haveI : NeZero vs.length := ⟨hpos.ne'⟩
  have hlen : (vs.rotate k).length = vs.length := List.length_rotate vs k
  rw [shoelaceSum_eq_fn, shoelaceSum_eq_fn, shoelaceFn_congr hlen]
  have hfun : ∀ i : Fin vs.length,
      (vs.rotate k).get (Fin.cast hlen.symm i) =
        vs.get (i + ⟨k % vs.length, Nat.mod_lt _ hpos⟩) := by
    intro i
    rw [List.get_rotate]
    refine congrArg vs.get (Fin.ext ?_)
    simp only [Fin.coe_cast, Fin.val_add]
    show (i.val + k) % vs.length = (i.val + k % vs.length) % vs.length
    conv_lhs => rw [Nat.add_mod]
    conv_rhs => rw [Nat.add_mod]
    rw [Nat.mod_mod_of_dvd k dvd_rfl]
  rw [show (fun i => (vs.rotate k).get (Fin.cast hlen.symm i)) =
      (fun i => vs.get (i + ⟨k % vs.length, Nat.mod_lt _ hpos⟩)) from funext hfun]
  exact shoelaceFn_rotate _ vs.get _

lemma shoelaceSum_reverse (vs : List (ℚ × ℚ)) (hne : vs ≠ []) :
    shoelaceSum vs.reverse = -shoelaceSum vs := by
  have hpos : 0 < vs.length := List.length_pos.mpr hne
  haveI : NeZero vs.length := ⟨hpos.ne'⟩
  have hlen : vs.reverse.length = vs.length := List.length_reverse vs
  rw [shoelaceSum_eq_fn, shoelaceSum_eq_fn, shoelaceFn_congr hlen]
  have hfun : ∀ i : Fin vs.length,
      vs.reverse.get (Fin.cast hlen.symm i) = vs.get i.rev := by
    intro i
    rw [List.get_reverse' vs (Fin.cast hlen.symm i)
      (by simp only [Fin.coe_cast]; omega)]
    refine congrArg vs.get (Fin.ext ?_)
    simp only [Fin.coe_cast, Fin.val_rev]
    omega
  rw [show (fun i => vs.reverse.get (Fin.cast hlen.symm i)) =
      (fun i => vs.get i.rev) from funext hfun]
  exact shoelaceFn_reverse _ vs.get

/-- C8: for every polygon with at least 3 vertices, `area()` is unchanged
when the vertex sequence is re-listed starting from a different index in the
same cyclic order (`List.rotate`), and unchanged when the winding order is
reversed (`List.reverse`). -/
theorem C8_area_rotation_reversal (vs : List (ℚ × ℚ)) (h : 3 ≤ vs.length)
    (j j' : ℕ) (k : ℕ) :
    Shape.area ⟨j, vs.rotate k⟩ = Shape.area ⟨j', vs⟩ ∧
    Shape.area ⟨j, vs.reverse⟩ = Shape.area ⟨j', vs⟩ := by
  have hne : vs ≠ [] := by
    intro e
    rw [e] at h
    simp at h
  constructor
  · rw [area_of_ge_three ⟨j, vs.rotate k⟩
        (by show 3 ≤ (vs.rotate k).length; rw [List.length_rotate]; exact h),
      area_of_ge_three ⟨j', vs⟩ h]
    show Except.ok (|shoelaceSum (vs.rotate k)| / 2) = Except.ok (|shoelaceSum vs| / 2)
    rw [shoelaceSum_rotate vs hne k]
  · rw [area_of_ge_three ⟨j, vs.reverse⟩
        (by show 3 ≤ vs.reverse.length; rw [List.length_reverse]; exact h),
      area_of_ge_three ⟨j', vs⟩ h]
    show Except.ok (|shoelaceSum vs.reverse| / 2) = Except.ok (|shoelaceSum vs| / 2)
    rw [shoelaceSum_reverse vs hne, abs_neg]

/-- Witness for C8 at the concrete 3-4-5 triangle, rotated by one position
and reversed. -/
theorem C8_witness :
    3 ≤ ([((0 : ℚ), (0 : ℚ)), (4, 0), (4, 3)] : List (ℚ × ℚ)).length ∧
    Shape.area ⟨5, ([((0 : ℚ), (0 : ℚ)), (4, 0), (4, 3)] : List (ℚ × ℚ)).rotate 1⟩ =
      Shape.area ⟨0, [(0, 0), (4, 0), (4, 3)]⟩ ∧
    Shape.area ⟨5, ([((0 : ℚ), (0 : ℚ)), (4, 0), (4, 3)] : List (ℚ × ℚ)).reverse⟩ =
      Shape.area ⟨0, [(0, 0), (4, 0), (4, 3)]⟩ :=
  ⟨by decide,
    (C8_area_rotation_reversal [(0, 0), (4, 0), (4, 3)] (by decide) 5 0 1).1,
    (C8_area_rotation_reversal [(0, 0), (4, 0), (4, 3)] (by decide) 5 0 1).2⟩

/-! ## Invocation surface: status codes of `parse_csv` -/

lemma ingestFrom_ids (rows : List (List (List Char))) :
    ∀ k, (ingestFrom k rows).map Shape.id = List.range' k rows.length := by
  induction rows with
  | nil => intro k; rfl
  | cons row rest ih =>
      intro k
      simp only [ingestFrom, shapeTruthy, if_pos, List.map_cons, List.length_cons]
      rw [ih (k + 1)]
      rfl

lemma ingest_ids (rows : List (List (List Char))) :
    (ingest rows).map Shape.id = List.range rows.length := by
  rw [ingest, ingestFrom_ids rows 0, List.range_eq_range']

lemma ingest_ids_nodup (rows : List (List (List Char))) :
    ((ingest rows).map Shape.id).Nodup := by
  rw [ingest_ids]
  exact List.nodup_range _

/-- C9: the single invocation operation returns status code 0 on success
(header present, at least 10 valid polygons) with a complete report, and on
a record source that cannot be opened it returns the non-zero status 1 with
no partial report and no escaping exception. -/
theorem C9_status (hdr : List (List Char)) (rows : List (List (List Char)))
    (h : 10 ≤ validCount (ingest rows)) :
    parse_csv none = .ok (1, [], []) ∧
    ∃ r1 r2, parse_csv (some (hdr :: rows)) = .ok (0, r1, r2) := by
  refine ⟨rfl, ?_⟩
  have hmp := metricPass_length (ingest rows)
  have h1 : 10 ≤ (sortDesc (metricPass (ingest rows)).1).length := by
    rw [(sortDesc_perm _).length_eq, hmp.1]
    exact h
  have h2 : 10 ≤ (sortDesc (metricPass (ingest rows)).2).length := by
    rw [(sortDesc_perm _).length_eq, hmp.2]
    exact h
  cases hA : sortDesc (metricPass (ingest rows)).1 with
  | nil =>
      rw [hA] at h1
      simp at h1
  | cons top rest =>
      have htop : top ∈ (metricPass (ingest rows)).1 :=
        (sortDesc_perm _).subset (hA ▸ List.mem_cons_self top rest)
      rcases metricPass_mem_fst (ingest rows) top htop with ⟨s, hsmem, hsid, hsval⟩
      have hfind : ∃ t ∈ ingest rows, (fun t => t.id == top.1) t = true :=
        ⟨s, hsmem, by simp [hsid]⟩
      cases hf : (ingest rows).find? (fun t => t.id == top.1) with
      | none =>
          rw [← List.find?_isSome, hf] at hfind
          simp at hfind
      | some s' =>
          have hs'id : s'.id = top.1 := by simpa using List.find?_some hf
          have hs'mem : s' ∈ ingest rows := List.mem_of_find?_eq_some hf
          have hs's : s' = s :=
            List.inj_on_of_nodup_map (ingest_ids_nodup rows) hs'mem hsmem
              (by rw [hs'id, hsid])
          have hs'val : 3 ≤ s'.vertices.length := hs's ▸ hsval
          have htrans : 3 ≤ (s'.affine_transform tmatrix rows.length).vertices.length := by
            show 3 ≤ (s'.vertices.map _).length
            rw [List.length_map]
            exact hs'val
          refine ⟨(sortDesc (metricPass (ingest rows)).1).take 10,
            (sortDesc (metricPass (ingest rows)).2).take 10, ?_⟩
          show (if 10 ≤ (sortDesc (metricPass (ingest rows)).1).length ∧
              10 ≤ (sortDesc (metricPass (ingest rows)).2).length then _ else _) = _
          rw [if_pos ⟨h1, h2⟩, hA]
          show (match (ingest rows).find? (fun t => t.id == top.1) with
            | none => _ | some s => _) = _
          rw [hf]
          show (match (s'.affine_transform tmatrix rows.length).area with
            | .error e => _ | .ok a => _) = _
          rw [area_of_ge_three _ htrans]

/-- Witness for C9 on a concrete batch of 10 valid triangle records. -/
theorem C9_witness :
    10 ≤ validCount (ingest (List.replicate 10 ["0;0".data, "4;0".data, "4;3".data])) ∧
    parse_csv none = .ok (1, [], []) ∧
    ∃ r1 r2, parse_csv (some (["header".data] ::
      List.replicate 10 ["0;0".data, "4;0".data, "4;3".data])) = .ok (0, r1, r2) :=
  ⟨by decide,
    (C9_status ["header".data] (List.replicate 10 ["0;0".data, "4;0".data, "4;3".data])
      (by decide)).1,
    (C9_status ["header".data] (List.replicate 10 ["0;0".data, "4;0".data, "4;3".data])
      (by decide)).2⟩
